import Mathlib

/-!
# Crash-recovery accounting of the process supervisor

A shallow embedding of `lib/boss/ProcessInfo.js`: the constructor, the method
`stillCrashing` and the recovery-timer callback it arms, together with the part
of the JavaScript runtime they touch (the timer table, the clock, the pending
log-file lookup). The worker set of `lib/common/ManagedProcess.js`, whose code
is not among the sources, is modelled from the specification at the end of the
definitions.

Conventions of the embedding.

* `restarts` and `totalRestarts` are JavaScript numbers that only ever hold
  counts of calls; they are embedded as `Nat`.
* A property that is absent or `undefined` is `none`.
* Durations and points in time are milliseconds, as `Nat`; `setTimeout` arms a
  delay outside 1 ms .. 2^31 - 1 ms as 1 ms, as the runtime does.
* The runtime holds the timers and the lookup of one record: every property
  below concerns a single `ProcessInfo`.
* A callback that throws leaves the record as it was at the throw and the error
  is recorded as uncaught by the runtime.
-/

namespace Guvnor

/-! ## Values of the JavaScript side -/

/-- An exception raised while JavaScript code runs. -/
inductive JsError where
  | typeError (message : String)
  deriving DecidableEq, Repr

/-- A log sink: the file it writes to and the lines written so far. -/
structure Logger where
  filename : Option String
  lines : List String
  deriving DecidableEq, Repr

/-- The call `logger.info(message)`: one more line in the sink. -/
def Logger.info (l : Logger) (message : String) : Logger :=
  { l with lines := l.lines ++ [message] }

/-- The library `winston` as the constructor callback uses it:
a `winston.Logger` over one `winston.transports.DailyRotateFile` transport
built on a file name. The library is not part of the repository, so its behaviour on a file name
(which is `undefined` when the lookup failed) is left open: it gives a sink or
throws. -/
structure Winston where
  dailyRotateFile : Option String → Except JsError Logger

/-- The options object a caller hands to the constructor: each property is
supplied (`some`) or not (`none`). -/
structure OptionsArg where
  name : Option String
  restartOnError : Option Bool
  restartRetries : Option Int
  crashRecoveryPeriod : Option Nat
  deriving DecidableEq, Repr

/-- The object literal with no property supplied. -/
def OptionsArg.empty : OptionsArg :=
  { name := none, restartOnError := none, restartRetries := none, crashRecoveryPeriod := none }

/-- The merged configuration stored in `this.options`. -/
structure Options where
  name : Option String
  restartOnError : Bool
  restartRetries : Int
  crashRecoveryPeriod : Nat
  deriving DecidableEq, Repr

/-- The object literal of lines 7-11, the first argument of `extend`. -/
def defaults : Options :=
  { name := none, restartOnError := true, restartRetries := 5, crashRecoveryPeriod := 5000 }

/-- The call `extend(target, source)` of the package `extend`: every property of
`source` that is defined overwrites the property of `target`; a `source` that
is `undefined` leaves `target` as it is. -/
def extend (target : Options) (source : Option OptionsArg) : Options :=
  match source with
  | none => target
  | some o =>
    { name := match o.name with
        | some v => some v
        | none => target.name
      restartOnError := o.restartOnError.getD target.restartOnError
      restartRetries := o.restartRetries.getD target.restartRetries
      crashRecoveryPeriod := o.crashRecoveryPeriod.getD target.crashRecoveryPeriod }

/-- The string concatenation `name + suffix` where `name` may be `undefined`. -/
def jsConcat (name : Option String) (suffix : String) : String :=
  (name.getD "undefined") ++ suffix

/-! ## The runtime: timers, clock, pending lookup -/

/-- A pending timer: the handle `setTimeout` returned, the delay it is armed
with and the time at which it is due. -/
structure Timer where
  handle : Nat
  delay : Nat
  due : Nat
  deriving DecidableEq, Repr

/-- The state of the runtime around one record. -/
structure Runtime where
  now : Nat
  nextHandle : Nat
  timers : List Timer
  lookups : List String
  uncaught : List JsError
  deriving DecidableEq, Repr

/-- A runtime with nothing pending, at time `0`. -/
def Runtime.boot : Runtime :=
  { now := 0, nextHandle := 1, timers := [], lookups := [], uncaught := [] }

/-- The call `clearTimeout(id)`: the timer with that handle is no longer
pending; `clearTimeout(null)` does nothing. -/
def Runtime.clearTimeout (rt : Runtime) (id : Option Nat) : Runtime :=
  match id with
  | none => rt
  | some h => { rt with timers := rt.timers.filter (fun t => t.handle != h) }

/-- The delay `setTimeout` arms a timer with: the runtime keeps a delay from
1 ms to 2^31 - 1 ms and replaces any other by 1 ms. -/
def Runtime.armedDelay (delay : Nat) : Nat :=
  if 1 ≤ delay ∧ delay ≤ 2147483647 then delay else 1

/-- The call `setTimeout(callback, delay)`: a new pending timer under a fresh
handle, which is returned. The timer is armed with the delay the runtime makes
of `delay` and is due that long from now. -/
def Runtime.setTimeout (rt : Runtime) (delay : Nat) : Nat × Runtime :=
  (rt.nextHandle,
    { rt with
      nextHandle := rt.nextHandle + 1
      timers := rt.timers ++
        [{ handle := rt.nextHandle
           delay := Runtime.armedDelay delay
           due := rt.now + Runtime.armedDelay delay }] })

/-- Modelled from the spec: the file-locator `fileSystem.findLogFile(name, callback)`
is a collaborator outside the sources; the spec gives it as asynchronous
(`findLogFile(name) -> (error, path)`), so the call only registers the lookup
and the callback runs later, when the lookup resolves. -/
def Runtime.findLogFile (rt : Runtime) (name : String) : Runtime :=
  { rt with lookups := rt.lookups ++ [name] }

/-! ## The record -/

/-- The fields of a `ProcessInfo` object. The constructor assigns `logger`; the
timer callback reads `_logger`, a property no line of the file assigns. -/
structure ProcessInfo where
  script : String
  process : String
  options : Options
  restarts : Nat
  totalRestarts : Nat
  _crashRecoveryTimeoutId : Option Nat
  logger : Option Logger
  _logger : Option Logger
  deriving DecidableEq, Repr

/-- A record together with the runtime it lives in. -/
structure World where
  info : ProcessInfo
  rt : Runtime
  deriving DecidableEq, Repr

/-- The constructor `ProcessInfo(script, process, options, fileSystem)`, lines
4-26. `options` is `none` when the caller passed `undefined`: line 7 accepts
that, line 17 reads `options.name` and throws. -/
def ProcessInfo.new (script process : String) (options : Option OptionsArg) (rt : Runtime) :
    Except JsError World :=
  let merged := extend defaults options
  match options with
  | none => .error (.typeError "Cannot read property name of undefined")
  | some o =>
    .ok
      { info :=
          { script := script
            process := process
            options := merged
            restarts := 0
            totalRestarts := 0
            _crashRecoveryTimeoutId := none
            logger := none
            _logger := none }
        rt := rt.findLogFile (jsConcat o.name ".log") }

/-- The callback handed to `findLogFile`, lines 17-25: `error` is ignored and
the sink built on `logFile` is stored in `this.logger`. -/
def ProcessInfo.onLogFile (lib : Winston) (p : ProcessInfo) (_error logFile : Option String) :
    Except JsError ProcessInfo :=
  match lib.dailyRotateFile logFile with
  | .error e => .error e
  | .ok l => .ok { p with logger := some l }

/-- The method `stillCrashing`, lines 28-39. -/
def ProcessInfo.stillCrashing (p : ProcessInfo) (rt : Runtime) : World :=
  let rt1 := rt.clearTimeout p._crashRecoveryTimeoutId
  let p1 := { p with restarts := p.restarts + 1 }
  let p2 := { p1 with totalRestarts := p1.totalRestarts + 1 }
  let armed := rt1.setTimeout p2.options.crashRecoveryPeriod
  { info := { p2 with _crashRecoveryTimeoutId := some armed.1 }, rt := armed.2 }

/-- The callback of the recovery timer, lines 35-38: `this._logger.info(...)`
first, which throws when `_logger` is `undefined`, then `this.restarts = 0`. -/
def ProcessInfo.crashRecoveryTimeout (p : ProcessInfo) : Except JsError ProcessInfo :=
  match p._logger with
  | none => .error (.typeError "Cannot read property info of undefined")
  | some l =>
    let p1 := { p with _logger := some (l.info "Process recovered") }
    .ok { p1 with restarts := 0 }

/-! ## The event loop -/

/-- The pending timer `t` fires: it leaves the timer table, the clock is at its
due time at least, and the recovery callback runs. -/
def World.fire (w : World) (t : Timer) : World :=
  let rt1 : Runtime :=
    { w.rt with
      now := max w.rt.now t.due
      timers := w.rt.timers.filter (fun u => u.handle != t.handle) }
  match w.info.crashRecoveryTimeout with
  | .ok p => { info := p, rt := rt1 }
  | .error e => { info := w.info, rt := { rt1 with uncaught := rt1.uncaught ++ [e] } }

/-- Insertion of a timer into a list ordered by due time, before the first
timer that is due no earlier. -/
def insertByDue (t : Timer) : List Timer → List Timer
  | [] => [t]
  | u :: us => if t.due ≤ u.due then t :: u :: us else u :: insertByDue t us

/-- The timers in the order in which they fire: by due time, and in the order
they were armed when due at the same time. -/
def sortByDue : List Timer → List Timer
  | [] => []
  | t :: ts => insertByDue t (sortByDue ts)

/-- The timers that are due once `ms` more milliseconds have passed. -/
def Runtime.dueWithin (rt : Runtime) (ms : Nat) : List Timer :=
  rt.timers.filter (fun t => decide (t.due ≤ rt.now + ms))

/-- Time passes: `ms` milliseconds without a call from outside. Every timer
that becomes due fires, in order. -/
def World.elapse (w : World) (ms : Nat) : World :=
  let w1 := (sortByDue (w.rt.dueWithin ms)).foldl World.fire w
  { w1 with rt := { w1.rt with now := w.rt.now + ms } }

/-- The pending lookup resolves with `(error, logFile)` and the constructor
callback runs; without a pending lookup nothing happens. -/
def World.logFileFound (lib : Winston) (w : World) (error logFile : Option String) : World :=
  match w.rt.lookups with
  | [] => w
  | _ :: rest =>
    let rt1 : Runtime := { w.rt with lookups := rest }
    match w.info.onLogFile lib error logFile with
    | .ok p => { info := p, rt := rt1 }
    | .error e => { info := w.info, rt := { rt1 with uncaught := rt1.uncaught ++ [e] } }

/-- What can happen to a record once it is built: a call of `stillCrashing`,
time passing (with the timer firing when due), the log-file lookup resolving. -/
inductive Event where
  | stillCrashing
  | elapse (ms : Nat)
  | logFileFound (error logFile : Option String)
  deriving DecidableEq, Repr

/-- One event. -/
def World.step (lib : Winston) (w : World) : Event → World
  | .stillCrashing => w.info.stillCrashing w.rt
  | .elapse ms => w.elapse ms
  | .logFileFound error logFile => w.logFileFound lib error logFile

/-- A sequence of events, first to last. -/
def World.run (lib : Winston) (w : World) (es : List Event) : World :=
  es.foldl (World.step lib) w

/-! ## The counters as the spec words them -/

/-- The meaning the spec gives the two counters: `sinceRecovery` is the number
of calls of `stillCrashing` since the recovery timer last fired (since
construction if it never did), `lifetime` the number of calls since
construction. -/
structure Counts where
  sinceRecovery : Nat
  lifetime : Nat
  deriving DecidableEq, Repr

/-- The counts at construction. -/
def Counts.zero : Counts :=
  { sinceRecovery := 0, lifetime := 0 }

/-- The counts after one event that happens in the world `w`: a call counts
once in both, a stretch of time in which a recovery timer fires starts
`sinceRecovery` anew. -/
def Counts.step (w : World) (c : Counts) : Event → Counts
  | .stillCrashing => { sinceRecovery := c.sinceRecovery + 1, lifetime := c.lifetime + 1 }
  | .elapse ms => if (w.rt.dueWithin ms).isEmpty then c else { c with sinceRecovery := 0 }
  | .logFileFound _ _ => c

/-- The counts along a sequence of events that starts in the world `w`. -/
def World.count (lib : Winston) : World → Counts → List Event → Counts
  | _, c, [] => c
  | w, c, e :: es => World.count lib (w.step lib e) (c.step w e) es

/-! ## Scenarios -/

/-- A `winston` that builds a sink on whatever file name it is given. -/
def Winston.lenient : Winston :=
  { dailyRotateFile := fun f => .ok { filename := f, lines := [] } }

/-- Three calls of `stillCrashing`, 100 ms apart. -/
def threeCrashes : List Event :=
  [.stillCrashing, .elapse 100, .stillCrashing, .elapse 100, .stillCrashing]

/-- One call of `stillCrashing`, then 5000 ms of quiet. -/
def crashThenQuiet : List Event :=
  [.stillCrashing, .elapse 5000]

/-- A record into which some outside party has put a sink under `_logger`. -/
def World.withLogger (w : World) (sink : Logger) : World :=
  { w with info := { w.info with _logger := some sink } }

/-- A burst of calls: one call of `stillCrashing`, and after each of the given
gaps (in ms) one more. -/
def burst : List Nat → List Event
  | [] => [.stillCrashing]
  | gap :: gaps => .stillCrashing :: .elapse gap :: burst gaps

/-- The timer table holds the recovery timer of the record and nothing else:
it is empty, or it holds the one timer whose handle the record stores. -/
def World.SingleTimer (w : World) : Prop :=
  w.rt.timers = [] ∨ ∃ t : Timer, w.rt.timers = [t] ∧ w.info._crashRecoveryTimeoutId = some t.handle

instance World.decidableSingleTimer (w : World) : Decidable w.SingleTimer :=
  match h : w.rt.timers with
  | [] => isTrue (Or.inl h)
  | [t] =>
    if hid : w.info._crashRecoveryTimeoutId = some t.handle then isTrue (Or.inr ⟨t, h, hid⟩)
    else isFalse (fun hs => by
      rcases hs with h0 | ⟨u, hu, hh⟩
      · rw [h] at h0; cases h0
      · rw [h] at hu
        injection hu with hu1 _
        subst hu1
        exact hid hh)
  | _ :: _ :: _ => isFalse (fun hs => by
      rcases hs with h0 | ⟨u, hu, _⟩
      · rw [h] at h0; cases h0
      · rw [h] at hu
        injection hu with _ hu2
        cases hu2)

/-! ## Worker set of a cluster master -/

/-- A worker descriptor: its identity `id` and the rest of what it carries. -/
structure Worker where
  id : String
  pid : Nat
  deriving DecidableEq, Repr

/-- The two forms of a managed process. -/
inductive Variant where
  | standalone
  | clusterMaster (workers : List Worker)
  deriving DecidableEq, Repr

/-- Modelled from the spec: `lib/common/ManagedProcess.js` is not among the
sources (only its test is). The part of the data model the worker operations
use: the socket, the name and the variant with its `workers`. -/
structure ManagedProcess where
  socketId : Option String
  name : String
  variant : Variant
  deriving DecidableEq, Repr

/-- Modelled from the spec: the field `workers` of `lib/common/ManagedProcess.js`,
present on a cluster master only. -/
def ManagedProcess.workers (m : ManagedProcess) : Option (List Worker) :=
  match m.variant with
  | .standalone => none
  | .clusterMaster ws => some ws

/-- Modelled from the spec: `addWorker` of `lib/common/ManagedProcess.js`,
"inserts `worker` into `workers` keyed by `worker.id`; if a worker with the same
id is already present, this is a no-op". A standalone process does not expose
the operation (`none`). -/
def ManagedProcess.addWorker (m : ManagedProcess) (worker : Worker) : Option ManagedProcess :=
  match m.variant with
  | .standalone => none
  | .clusterMaster ws =>
    if ws.any (fun x => x.id == worker.id) then some m
    else some { m with variant := .clusterMaster (ws ++ [worker]) }

/-- Modelled from the spec: `removeWorker` of `lib/common/ManagedProcess.js`,
"removes any entry whose id matches `worker.id`; removing a non-present id is a
no-op". A standalone process does not expose the operation (`none`). -/
def ManagedProcess.removeWorker (m : ManagedProcess) (worker : Worker) : Option ManagedProcess :=
  match m.variant with
  | .standalone => none
  | .clusterMaster ws =>
    some { m with variant := .clusterMaster (ws.filter (fun x => x.id != worker.id)) }

/-- The process of the test "should not add a worker twice": a cluster master
whose `workers` holds the one entry `bar`. -/
def testMaster : ManagedProcess :=
  { socketId := some "foo", name := "", variant := .clusterMaster [{ id := "bar", pid := 0 }] }

/-! ## Frame lemmas for the steps -/

theorem crashRecoveryTimeout_eq_error (p : ProcessInfo) (h : p._logger = none) :
    p.crashRecoveryTimeout = .error (.typeError "Cannot read property info of undefined") := by
  simp [ProcessInfo.crashRecoveryTimeout, h]

theorem fire_info_of_no_logger (w : World) (t : Timer) (h : w.info._logger = none) :
    (w.fire t).info = w.info := by
  simp [World.fire, crashRecoveryTimeout_eq_error _ h]

theorem fire_restarts_le (w : World) (t : Timer)
    (h : w.info.restarts ≤ w.info.totalRestarts) :
    (w.fire t).info.restarts ≤ (w.fire t).info.totalRestarts := by
  unfold World.fire ProcessInfo.crashRecoveryTimeout
  cases hl : w.info._logger with
  | none => simpa using h
  | some l => simp

theorem foldl_fire_restarts_le (ts : List Timer) (w : World)
    (h : w.info.restarts ≤ w.info.totalRestarts) :
    (ts.foldl World.fire w).info.restarts ≤ (ts.foldl World.fire w).info.totalRestarts := by
  induction ts generalizing w with
  | nil => simpa using h
  | cons t ts ih => exact ih (w.fire t) (fire_restarts_le w t h)

theorem foldl_fire_info_of_no_logger (ts : List Timer) (w : World)
    (h : w.info._logger = none) : (ts.foldl World.fire w).info = w.info := by
  induction ts generalizing w with
  | nil => rfl
  | cons t ts ih =>
    have hw : (w.fire t).info = w.info := fire_info_of_no_logger w t h
    have := ih (w.fire t) (by rw [hw]; exact h)
    simpa [hw] using this

theorem elapse_info_of_no_logger (w : World) (ms : Nat) (h : w.info._logger = none) :
    (w.elapse ms).info = w.info := by
  simp [World.elapse, foldl_fire_info_of_no_logger _ w h]

theorem elapse_restarts_le (w : World) (ms : Nat)
    (h : w.info.restarts ≤ w.info.totalRestarts) :
    (w.elapse ms).info.restarts ≤ (w.elapse ms).info.totalRestarts := by
  simpa [World.elapse] using foldl_fire_restarts_le (sortByDue (w.rt.dueWithin ms)) w h

theorem logFileFound_counters (lib : Winston) (w : World) (error logFile : Option String) :
    (w.logFileFound lib error logFile).info.restarts = w.info.restarts ∧
    (w.logFileFound lib error logFile).info.totalRestarts = w.info.totalRestarts ∧
    (w.logFileFound lib error logFile).info._logger = w.info._logger ∧
    (w.logFileFound lib error logFile).info.options = w.info.options ∧
    (w.logFileFound lib error logFile).rt.timers = w.rt.timers ∧
    (w.logFileFound lib error logFile).info._crashRecoveryTimeoutId =
      w.info._crashRecoveryTimeoutId := by
  unfold World.logFileFound ProcessInfo.onLogFile
  cases w.rt.lookups with
  | nil => simp
  | cons n rest =>
    cases lib.dailyRotateFile logFile with
    | error e => simp
    | ok l => simp

theorem step_restarts_le (lib : Winston) (w : World) (e : Event)
    (h : w.info.restarts ≤ w.info.totalRestarts) :
    (w.step lib e).info.restarts ≤ (w.step lib e).info.totalRestarts := by
  cases e with
  | stillCrashing =>
    simp only [World.step, ProcessInfo.stillCrashing]
    omega
  | elapse ms => exact elapse_restarts_le w ms h
  | logFileFound error logFile =>
    obtain ⟨h1, h2, -⟩ := logFileFound_counters lib w error logFile
    simp only [World.step, h1, h2]
    exact h

theorem run_restarts_le (lib : Winston) (es : List Event) (w : World)
    (h : w.info.restarts ≤ w.info.totalRestarts) :
    (w.run lib es).info.restarts ≤ (w.run lib es).info.totalRestarts := by
  induction es generalizing w with
  | nil => simpa [World.run] using h
  | cons e es ih => exact ih (w.step lib e) (step_restarts_le lib w e h)

theorem step_logger_none (lib : Winston) (w : World) (e : Event) (h : w.info._logger = none) :
    (w.step lib e).info._logger = none := by
  cases e with
  | stillCrashing => simpa [World.step, ProcessInfo.stillCrashing] using h
  | elapse ms => simp only [World.step, elapse_info_of_no_logger w ms h, h]
  | logFileFound error logFile =>
    simp only [World.step, (logFileFound_counters lib w error logFile).2.2.1, h]

theorem run_logger_none (lib : Winston) (es : List Event) (w : World)
    (h : w.info._logger = none) : (w.run lib es).info._logger = none := by
  induction es generalizing w with
  | nil => simpa [World.run] using h
  | cons e es ih => exact ih (w.step lib e) (step_logger_none lib w e h)

/-! ## What holds of the counters and the timer on the code -/

theorem fire_frame (w : World) (t : Timer) :
    (w.fire t).info.totalRestarts = w.info.totalRestarts ∧
    (w.fire t).info.options = w.info.options ∧
    (w.fire t).info._crashRecoveryTimeoutId = w.info._crashRecoveryTimeoutId ∧
    (w.fire t).rt.timers = w.rt.timers.filter (fun u => u.handle != t.handle) := by
  unfold World.fire ProcessInfo.crashRecoveryTimeout
  cases w.info._logger <;> simp

theorem foldl_fire_frame (ts : List Timer) (w : World) :
    (ts.foldl World.fire w).info.totalRestarts = w.info.totalRestarts ∧
    (ts.foldl World.fire w).info.options = w.info.options ∧
    (ts.foldl World.fire w).info._crashRecoveryTimeoutId = w.info._crashRecoveryTimeoutId ∧
    (ts.foldl World.fire w).rt.timers.Sublist w.rt.timers := by
  induction ts generalizing w with
  | nil => exact ⟨rfl, rfl, rfl, List.Sublist.refl _⟩
  | cons t ts ih =>
    obtain ⟨h1, h2, h3, h4⟩ := ih (w.fire t)
    obtain ⟨g1, g2, g3, g4⟩ := fire_frame w t
    refine ⟨by rw [List.foldl_cons, h1, g1], by rw [List.foldl_cons, h2, g2],
      by rw [List.foldl_cons, h3, g3], ?_⟩
    rw [List.foldl_cons]
    exact h4.trans (g4 ▸ List.filter_sublist _)

theorem elapse_frame (w : World) (ms : Nat) :
    (w.elapse ms).info.totalRestarts = w.info.totalRestarts ∧
    (w.elapse ms).info.options = w.info.options ∧
    (w.elapse ms).info._crashRecoveryTimeoutId = w.info._crashRecoveryTimeoutId ∧
    (w.elapse ms).rt.timers.Sublist w.rt.timers ∧
    (w.elapse ms).rt.now = w.rt.now + ms := by
  obtain ⟨h1, h2, h3, h4⟩ := foldl_fire_frame (sortByDue (w.rt.dueWithin ms)) w
  exact ⟨h1, h2, h3, h4, rfl⟩

theorem elapse_of_nothing_due (w : World) (ms : Nat) (h : w.rt.dueWithin ms = []) :
    (w.elapse ms).info = w.info ∧ (w.elapse ms).rt.timers = w.rt.timers := by
  simp [World.elapse, h, sortByDue]

theorem step_totalRestarts (lib : Winston) (w : World) (c : Counts) (e : Event) :
    (w.step lib e).info.totalRestarts + c.lifetime =
      w.info.totalRestarts + (c.step w e).lifetime := by
  cases e with
  | stillCrashing =>
    simp only [World.step, Counts.step, ProcessInfo.stillCrashing]
    omega
  | elapse ms =>
    simp only [World.step, Counts.step, (elapse_frame w ms).1]
    split <;> rfl
  | logFileFound error logFile =>
    simp only [World.step, Counts.step, (logFileFound_counters lib w error logFile).2.1]

/-- Along every run `totalRestarts` grows by the number of calls of
`stillCrashing` made. -/
theorem run_totalRestarts (lib : Winston) (es : List Event) (w : World) (c : Counts) :
    (w.run lib es).info.totalRestarts + c.lifetime =
      w.info.totalRestarts + (w.count lib c es).lifetime := by
  induction es generalizing w c with
  | nil => rfl
  | cons e es ih =>
    have h1 := ih (w.step lib e) (c.step w e)
    have h2 := step_totalRestarts lib w c e
    simp only [World.run, List.foldl_cons, World.count] at h1 ⊢
    omega

theorem sublist_singleTimer (w v : World) (h : w.SingleTimer)
    (hs : v.rt.timers.Sublist w.rt.timers)
    (hid : v.info._crashRecoveryTimeoutId = w.info._crashRecoveryTimeoutId) : v.SingleTimer := by
  rcases h with h | ⟨t, ht, hh⟩
  · left
    rw [h] at hs
    exact List.sublist_nil.mp hs
  · rw [ht] at hs
    rcases List.sublist_cons_iff.mp hs with h1 | ⟨r, hr, h2⟩
    · left
      exact List.sublist_nil.mp h1
    · right
      have hr2 : r = [] := List.sublist_nil.mp h2
      exact ⟨t, by rw [hr, hr2], by rw [hid, hh]⟩

theorem stillCrashing_singleTimer (w : World) (h : w.SingleTimer) :
    (w.info.stillCrashing w.rt).rt.timers =
      [{ handle := w.rt.nextHandle
         delay := Runtime.armedDelay w.info.options.crashRecoveryPeriod
         due := w.rt.now + Runtime.armedDelay w.info.options.crashRecoveryPeriod }] ∧
    (w.info.stillCrashing w.rt).SingleTimer := by
  have key : (w.info.stillCrashing w.rt).rt.timers =
      [{ handle := w.rt.nextHandle
         delay := Runtime.armedDelay w.info.options.crashRecoveryPeriod
         due := w.rt.now + Runtime.armedDelay w.info.options.crashRecoveryPeriod }] := by
    rcases h with h | ⟨t, ht, hh⟩
    · cases hid : w.info._crashRecoveryTimeoutId <;>
        simp [ProcessInfo.stillCrashing, Runtime.clearTimeout, Runtime.setTimeout, hid, h]
    · simp [ProcessInfo.stillCrashing, Runtime.clearTimeout, Runtime.setTimeout, hh, ht]
  refine ⟨key, Or.inr ⟨_, key, ?_⟩⟩
  cases hid : w.info._crashRecoveryTimeoutId <;>
    simp [ProcessInfo.stillCrashing, Runtime.clearTimeout, Runtime.setTimeout, hid]

theorem step_singleTimer (lib : Winston) (w : World) (e : Event) (h : w.SingleTimer) :
    (w.step lib e).SingleTimer := by
  cases e with
  | stillCrashing => exact (stillCrashing_singleTimer w h).2
  | elapse ms =>
    obtain ⟨-, -, h3, h4, -⟩ := elapse_frame w ms
    exact sublist_singleTimer w _ h h4 h3
  | logFileFound error logFile =>
    obtain ⟨-, -, -, -, h5, h6⟩ := logFileFound_counters lib w error logFile
    exact sublist_singleTimer w _ h (by rw [World.step, h5]) (by rw [World.step, h6])

/-- In every state reached from one with at most the record's own timer
pending, at most one timer is pending. -/
theorem run_singleTimer (lib : Winston) (es : List Event) (w : World) (h : w.SingleTimer) :
    (w.run lib es).SingleTimer ∧ (w.run lib es).rt.timers.length ≤ 1 := by
  induction es generalizing w with
  | nil =>
    refine ⟨h, ?_⟩
    rcases h with h | ⟨t, ht, -⟩
    · simp [World.run, h]
    · simp [World.run, ht]
  | cons e es ih => exact ih (w.step lib e) (step_singleTimer lib w e h)

/-- The debounce, with or without a sink under `_logger`: over a burst of calls
with every gap shorter than the delay the timer is armed with (which is
`crashRecoveryPeriod` when that is from 1 ms to 2^31 - 1 ms) no timer fires, so
each call adds 1 to `restarts`, and at the end one timer is pending, due that
delay after the last call. -/
theorem burst_restarts (lib : Winston) (gaps : List Nat) (w : World) (h : w.SingleTimer)
    (hg : ∀ g ∈ gaps, g < Runtime.armedDelay w.info.options.crashRecoveryPeriod) :
    (w.run lib (burst gaps)).info.restarts = w.info.restarts + (gaps.length + 1) ∧
    (w.run lib (burst gaps)).info.totalRestarts = w.info.totalRestarts + (gaps.length + 1) ∧
    (w.run lib (burst gaps)).info.options = w.info.options ∧
    (w.run lib (burst gaps)).info._logger = w.info._logger ∧
    ∃ t : Timer, (w.run lib (burst gaps)).rt.timers = [t] ∧
      t.due = (w.run lib (burst gaps)).rt.now +
        Runtime.armedDelay w.info.options.crashRecoveryPeriod := by
  induction gaps generalizing w with
  | nil =>
    obtain ⟨h1, -⟩ := stillCrashing_singleTimer w h
    refine ⟨rfl, rfl, rfl, rfl, _, h1, ?_⟩
    cases hid : w.info._crashRecoveryTimeoutId <;>
      simp [World.run, burst, World.step, ProcessInfo.stillCrashing, Runtime.clearTimeout,
        Runtime.setTimeout, hid]
  | cons g gs ih =>
    obtain ⟨h1, h2⟩ := stillCrashing_singleTimer w h
    have hnow : (w.info.stillCrashing w.rt).rt.now = w.rt.now := by
      cases hid : w.info._crashRecoveryTimeoutId <;>
        simp [ProcessInfo.stillCrashing, Runtime.clearTimeout, Runtime.setTimeout, hid]
    have hglt : g < Runtime.armedDelay w.info.options.crashRecoveryPeriod :=
      hg g (List.mem_cons_self g gs)
    have hdue : (w.info.stillCrashing w.rt).rt.dueWithin g = [] := by
      simp only [Runtime.dueWithin, h1, hnow, List.filter_cons, List.filter_nil]
      rw [if_neg]
      simp only [decide_eq_true_eq]
      omega
    obtain ⟨e1, e2⟩ := elapse_of_nothing_due (w.info.stillCrashing w.rt) g hdue
    have hsingle : ((w.info.stillCrashing w.rt).elapse g).SingleTimer :=
      step_singleTimer lib _ (.elapse g) h2
    have hopt : ((w.info.stillCrashing w.rt).elapse g).info.options = w.info.options := by
      rw [e1]; rfl
    obtain ⟨r1, r2, r3, r4, t, r5, r6⟩ := ih ((w.info.stillCrashing w.rt).elapse g) hsingle
      (by intro x hx; rw [hopt]; exact hg x (List.mem_cons_of_mem g hx))
    have hrun : w.run lib (burst (g :: gs)) =
        ((w.info.stillCrashing w.rt).elapse g).run lib (burst gs) := rfl
    rw [hrun]
    refine ⟨?_, ?_, ?_, ?_, t, r5, ?_⟩
    · rw [r1, e1]; simp only [ProcessInfo.stillCrashing, List.length_cons]; omega
    · rw [r2, e1]; simp only [ProcessInfo.stillCrashing, List.length_cons]; omega
    · rw [r3, hopt]
    · rw [r4, e1]; rfl
    · rw [r6, hopt]

/-! ## The properties of the specification, on the code -/

/-- C1, amended: one call of `stillCrashing`, in any state, adds exactly 1 to
`restarts` and exactly 1 to `totalRestarts`, leaves the options alone, takes
the timer armed before (the one whose handle is in `_crashRecoveryTimeoutId`,
if any) out of the pending timers, and arms exactly one new timer, whose handle
it stores. The delay of that timer is `options.crashRecoveryPeriod` when the
period is from 1 ms to 2147483647 ms, and 1 ms for any other period. -/
theorem stillCrashing_effect (p : ProcessInfo) (rt : Runtime) :
    (p.stillCrashing rt).info.restarts = p.restarts + 1 ∧
    (p.stillCrashing rt).info.totalRestarts = p.totalRestarts + 1 ∧
    (p.stillCrashing rt).info.options = p.options ∧
    ∃ t : Timer,
      (p.stillCrashing rt).rt.timers =
        rt.timers.filter (fun u => decide (some u.handle ≠ p._crashRecoveryTimeoutId)) ++ [t] ∧
      (p.stillCrashing rt).info._crashRecoveryTimeoutId = some t.handle ∧
      t.delay =
        (if 1 ≤ p.options.crashRecoveryPeriod ∧ p.options.crashRecoveryPeriod ≤ 2147483647
          then p.options.crashRecoveryPeriod else 1) ∧
      t.due = rt.now + t.delay ∧
      (1 ≤ p.options.crashRecoveryPeriod → p.options.crashRecoveryPeriod ≤ 2147483647 →
        t.delay = p.options.crashRecoveryPeriod ∧
        t.due = rt.now + p.options.crashRecoveryPeriod) := by
  refine ⟨rfl, rfl, rfl,
    ⟨{ handle := rt.nextHandle
       delay := Runtime.armedDelay p.options.crashRecoveryPeriod
       due := rt.now + Runtime.armedDelay p.options.crashRecoveryPeriod }, ?_, ?_, rfl, ?_, ?_⟩⟩
  · cases hid : p._crashRecoveryTimeoutId with
    | none => simp [ProcessInfo.stillCrashing, Runtime.clearTimeout, Runtime.setTimeout, hid]
    | some h =>
      simp only [ProcessInfo.stillCrashing, Runtime.clearTimeout, Runtime.setTimeout, hid]
      congr 1
      apply List.filter_congr
      intro u _
      by_cases hu : u.handle = h <;> simp [hu]
  · cases hid : p._crashRecoveryTimeoutId <;>
      simp [ProcessInfo.stillCrashing, Runtime.clearTimeout, Runtime.setTimeout, hid]
  · cases hid : p._crashRecoveryTimeoutId <;>
      simp [ProcessInfo.stillCrashing, Runtime.clearTimeout, Runtime.setTimeout, hid]
  · intro h1 h2
    have hd : Runtime.armedDelay p.options.crashRecoveryPeriod = p.options.crashRecoveryPeriod := by
      simp [Runtime.armedDelay, h1, h2]
    exact ⟨hd, by rw [hd]⟩

/-- C1, as stated, fails on a period the runtime does not keep. A record built
with `crashRecoveryPeriod: 2147483648` stores that period; one call of
`stillCrashing` arms one timer, and its delay is 1 ms, not the period: it is
due at 1 ms, and on a record with a sink under `_logger` it has fired and reset
`restarts` after 50 ms. -/
theorem stillCrashing_overlong_period :
    ∃ w : World,
      ProcessInfo.new "app.js" "child"
        (some { OptionsArg.empty with crashRecoveryPeriod := some 2147483648 }) Runtime.boot =
          .ok w ∧
      w.info.options.crashRecoveryPeriod = 2147483648 ∧
      (w.info.stillCrashing w.rt).rt.timers = [{ handle := 1, delay := 1, due := 1 }] ∧
      (∀ t ∈ (w.info.stillCrashing w.rt).rt.timers,
        t.delay ≠ w.info.options.crashRecoveryPeriod) ∧
      ((w.withLogger { filename := none, lines := [] }).run Winston.lenient
        [.stillCrashing, .elapse 50]).info.restarts = 0 :=
  ⟨_, rfl, by decide, by decide, by decide, by decide⟩

/-- C7: for every options object handed to the constructor, construction
returns a record with `restarts = 0`, `totalRestarts = 0`, no timer armed (no
handle stored, no timer added to the pending ones), and in `options` each of
`restartOnError`, `restartRetries`, `crashRecoveryPeriod` holds the caller's
value when the caller supplied one and `true`, `5`, `5000` when not; with no
recognised field supplied the three are `true`, `5`, `5000`. -/
theorem new_initial_record (script process : String) (o : OptionsArg) (rt : Runtime) :
    ∃ w : World, ProcessInfo.new script process (some o) rt = .ok w ∧
      w.info.restarts = 0 ∧ w.info.totalRestarts = 0 ∧
      w.info._crashRecoveryTimeoutId = none ∧ w.rt.timers = rt.timers ∧
      (o.restartOnError = none → w.info.options.restartOnError = true) ∧
      (o.restartRetries = none → w.info.options.restartRetries = 5) ∧
      (o.crashRecoveryPeriod = none → w.info.options.crashRecoveryPeriod = 5000) ∧
      (∀ v, o.restartOnError = some v → w.info.options.restartOnError = v) ∧
      (∀ v, o.restartRetries = some v → w.info.options.restartRetries = v) ∧
      (∀ v, o.crashRecoveryPeriod = some v → w.info.options.crashRecoveryPeriod = v) ∧
      (o.restartOnError = none → o.restartRetries = none → o.crashRecoveryPeriod = none →
        w.info.options.restartOnError = true ∧ w.info.options.restartRetries = 5 ∧
        w.info.options.crashRecoveryPeriod = 5000) := by
  refine ⟨_, rfl, rfl, rfl, rfl, rfl, ?_, ?_, ?_, ?_, ?_, ?_, ?_⟩
  · intro h; simp [extend, defaults, h]
  · intro h; simp [extend, defaults, h]
  · intro h; simp [extend, defaults, h]
  · intro v h; simp [extend, defaults, h]
  · intro v h; simp [extend, defaults, h]
  · intro v h; simp [extend, defaults, h]
  · intro h1 h2 h3; simp [extend, defaults, h1, h2, h3]

/-- C8: constructing a record from an options object returns normally and
issues exactly one `findLogFile` lookup, for `options.name + ".log"`; whatever
that lookup resolves with (an error, a path, both or neither) and whatever the
logging library does with it, the resolution leaves `restarts` and
`totalRestarts` of the fresh record at `0`, and in any later state of a record
it leaves both counters, the options and the pending timers as they are. -/
theorem new_lookup_nonfatal (lib : Winston) (script process : String) (o : OptionsArg)
    (rt : Runtime) :
    ∃ w : World, ProcessInfo.new script process (some o) rt = .ok w ∧
      w.rt.lookups = rt.lookups ++ [jsConcat o.name ".log"] ∧
      w.rt.uncaught = rt.uncaught ∧
      (∀ error logFile : Option String,
        (w.logFileFound lib error logFile).info.restarts = 0 ∧
        (w.logFileFound lib error logFile).info.totalRestarts = 0) ∧
      (∀ (v : World) (error logFile : Option String),
        (v.logFileFound lib error logFile).info.restarts = v.info.restarts ∧
        (v.logFileFound lib error logFile).info.totalRestarts = v.info.totalRestarts ∧
        (v.logFileFound lib error logFile).info.options = v.info.options ∧
        (v.logFileFound lib error logFile).rt.timers = v.rt.timers) := by
  refine ⟨_, rfl, rfl, rfl, ?_, ?_⟩
  · intro error logFile
    obtain ⟨h1, h2, -⟩ := logFileFound_counters lib
      { info :=
          { script := script
            process := process
            options := extend defaults (some o)
            restarts := 0
            totalRestarts := 0
            _crashRecoveryTimeoutId := none
            logger := none
            _logger := none }
        rt := rt.findLogFile (jsConcat o.name ".log") } error logFile
    exact ⟨h1, h2⟩
  · intro v error logFile
    obtain ⟨h1, h2, -, h4, h5, -⟩ := logFileFound_counters lib v error logFile
    exact ⟨h1, h2, h4, h5⟩

/-- C4: in every state reached from a freshly constructed record by calls of
`stillCrashing`, time passing with the recovery timer firing when due, and the
log-file lookup resolving, `restarts ≤ totalRestarts`; the same holds when an
outside party has put a sink under `_logger` of the fresh record, so that the
firing timer does reset `restarts`. -/
theorem restarts_le_totalRestarts (lib : Winston) (script process : String) (o : OptionsArg)
    (rt : Runtime) (es : List Event) :
    ∃ w : World, ProcessInfo.new script process (some o) rt = .ok w ∧
      (w.run lib es).info.restarts ≤ (w.run lib es).info.totalRestarts ∧
      ∀ sink : Logger,
        ((w.withLogger sink).run lib es).info.restarts ≤
          ((w.withLogger sink).run lib es).info.totalRestarts := by
  refine ⟨_, rfl, ?_, ?_⟩
  · exact run_restarts_le lib es _ (Nat.le_refl 0)
  · intro sink
    exact run_restarts_le lib es _ (Nat.le_refl 0)

/-- C10: on a record built by the constructor and driven only by its own
operations (calls of `stillCrashing`, the timer firing as time passes, the
lookup resolving), `_logger` stays unassigned in every state reached. The
lookup callback stores the sink the library builds under `logger`, changing
nothing else, and stores nothing when the library throws; on the fresh record
the resolved lookup leaves the sink in `logger` and `_logger` unassigned. The
timer callback writes the line "Process recovered" to the sink under `_logger`
and then sets `restarts` to 0, and throws, changing nothing, when `_logger` is
unassigned. So in every state reached the callback throws, and a firing timer
and any stretch of time leave the record, `restarts` included, as it was; the
reset is reached exactly on records whose `_logger` is set. -/
theorem recovery_never_resets (lib : Winston) (script process : String) (o : OptionsArg)
    (rt : Runtime) (es : List Event) :
    ∃ w : World, ProcessInfo.new script process (some o) rt = .ok w ∧
      (w.run lib es).info._logger = none ∧
      (w.run lib es).info.crashRecoveryTimeout =
        .error (.typeError "Cannot read property info of undefined") ∧
      (∀ t : Timer, ((w.run lib es).fire t).info = (w.run lib es).info) ∧
      (∀ ms : Nat, ((w.run lib es).elapse ms).info = (w.run lib es).info) ∧
      (∀ ms : Nat, ((w.run lib es).elapse ms).info.restarts = (w.run lib es).info.restarts) ∧
      (∀ (p : ProcessInfo) (error logFile : Option String) (l : Logger),
        lib.dailyRotateFile logFile = .ok l →
          p.onLogFile lib error logFile = .ok { p with logger := some l }) ∧
      (∀ (p : ProcessInfo) (error logFile : Option String) (e : JsError),
        lib.dailyRotateFile logFile = .error e → p.onLogFile lib error logFile = .error e) ∧
      (∀ (error logFile : Option String) (l : Logger),
        lib.dailyRotateFile logFile = .ok l →
          (w.logFileFound lib error logFile).info.logger = some l ∧
          (w.logFileFound lib error logFile).info._logger = none) ∧
      (∀ (p : ProcessInfo) (l : Logger), p._logger = some l →
        p.crashRecoveryTimeout =
          .ok { p with
                _logger := some { l with lines := l.lines ++ ["Process recovered"] }
                restarts := 0 }) ∧
      (∀ p : ProcessInfo, p._logger = none →
        p.crashRecoveryTimeout = .error (.typeError "Cannot read property info of undefined")) ∧
      (∀ p : ProcessInfo,
        (∃ q, p.crashRecoveryTimeout = .ok q ∧ q.restarts = 0) ↔ p._logger ≠ none) := by
  refine ⟨_, rfl, ?_, ?_, ?_, ?_, ?_, ?_, ?_, ?_, ?_, ?_, ?_⟩
  · exact run_logger_none lib es _ rfl
  · exact crashRecoveryTimeout_eq_error _ (run_logger_none lib es _ rfl)
  · intro t
    exact fire_info_of_no_logger _ t (run_logger_none lib es _ rfl)
  · intro ms
    exact elapse_info_of_no_logger _ ms (run_logger_none lib es _ rfl)
  · intro ms
    rw [elapse_info_of_no_logger _ ms (run_logger_none lib es _ rfl)]
  · intro p error logFile l hl
    simp [ProcessInfo.onLogFile, hl]
  · intro p error logFile e he
    simp [ProcessInfo.onLogFile, he]
  · intro error logFile l hl
    cases hrt : rt.lookups <;>
      simp [World.logFileFound, Runtime.findLogFile, ProcessInfo.onLogFile, hl, hrt]
  · intro p l hl
    simp [ProcessInfo.crashRecoveryTimeout, Logger.info, hl]
  · intro p hp
    exact crashRecoveryTimeout_eq_error p hp
  · intro p
    unfold ProcessInfo.crashRecoveryTimeout
    cases h : p._logger with
    | none => simp
    | some l => simp

/-- C2: the scenario of the spec on the code. A record built with default
options takes three calls of `stillCrashing` 100 ms apart: `restarts` and
`totalRestarts` are 3 and one timer is pending. After 5000 ms of quiet the
timer has fired (nothing is pending, its callback threw), `totalRestarts` is
still 3, and `restarts` is still 3, not 0. On the same record with a sink put
under `_logger` from outside, the same events end with `restarts = 0`. -/
theorem quiet_period_keeps_restarts :
    ∃ w : World, ProcessInfo.new "app.js" "child" (some OptionsArg.empty) Runtime.boot = .ok w ∧
      (w.run Winston.lenient threeCrashes).info.restarts = 3 ∧
      (w.run Winston.lenient threeCrashes).info.totalRestarts = 3 ∧
      (w.run Winston.lenient threeCrashes).rt.timers = [{ handle := 3, delay := 5000, due := 5200 }] ∧
      (w.run Winston.lenient (threeCrashes ++ [.elapse 5000])).rt.timers = [] ∧
      (w.run Winston.lenient (threeCrashes ++ [.elapse 5000])).rt.uncaught =
        [.typeError "Cannot read property info of undefined"] ∧
      (w.run Winston.lenient (threeCrashes ++ [.elapse 5000])).info.totalRestarts = 3 ∧
      (w.run Winston.lenient (threeCrashes ++ [.elapse 5000])).info.restarts = 3 ∧
      ((w.withLogger { filename := none, lines := [] }).run Winston.lenient
        (threeCrashes ++ [.elapse 5000])).info.restarts = 0 :=
  ⟨_, rfl, by decide, by decide, by decide, by decide, by decide, by decide, by decide, by decide⟩

/-- C3: the firing of an armed recovery timer on the code. A record built by
the constructor takes one call of `stillCrashing`, which arms the timer; when
that timer fires, the callback throws at `this._logger.info`, no line is
logged (neither `logger` nor `_logger` holds a sink), `restarts` stays 1
instead of becoming 0, and `totalRestarts` and the options are unchanged. -/
theorem armed_timer_fires_without_reset :
    ∃ w : World,
      ProcessInfo.new "app.js" "child" (some { OptionsArg.empty with name := some "app" })
        Runtime.boot = .ok w ∧
      (w.info.stillCrashing w.rt).rt.timers = [{ handle := 1, delay := 5000, due := 5000 }] ∧
      (w.info.stillCrashing w.rt).info.restarts = 1 ∧
      (w.info.stillCrashing w.rt).info.crashRecoveryTimeout =
        .error (.typeError "Cannot read property info of undefined") ∧
      ((w.info.stillCrashing w.rt).fire { handle := 1, delay := 5000, due := 5000 }).info.restarts = 1 ∧
      ((w.info.stillCrashing w.rt).fire { handle := 1, delay := 5000, due := 5000 }).info.logger = none ∧
      ((w.info.stillCrashing w.rt).fire { handle := 1, delay := 5000, due := 5000 }).info._logger = none ∧
      ((w.info.stillCrashing w.rt).fire { handle := 1, delay := 5000, due := 5000 }).info.totalRestarts = 1 ∧
      ((w.info.stillCrashing w.rt).fire { handle := 1, delay := 5000, due := 5000 }).info.options =
        (w.info.stillCrashing w.rt).info.options :=
  ⟨_, rfl, by decide, by decide, rfl, by decide, by decide, by decide, by decide, by decide⟩

/-- C5: the timer invariant on the code. A record built with default options
takes one call of `stillCrashing` (one timer pending, `restarts = 1`); after
5000 ms of quiet the timer has fired and no timer is pending, while `restarts`
is still 1: a state with `restarts > 0` and no recovery timer armed. -/
theorem restarts_positive_without_timer :
    ∃ w : World, ProcessInfo.new "app.js" "child" (some OptionsArg.empty) Runtime.boot = .ok w ∧
      (w.run Winston.lenient [.stillCrashing]).rt.timers.length = 1 ∧
      (w.run Winston.lenient [.stillCrashing]).info.restarts = 1 ∧
      (w.run Winston.lenient crashThenQuiet).rt.timers.length = 0 ∧
      (w.run Winston.lenient crashThenQuiet).info.restarts = 1 :=
  ⟨_, rfl, by decide, by decide, by decide, by decide⟩

/-- C6: the meaning of the counters on the code. A record built with default
options takes one call of `stillCrashing` and then 5000 ms of quiet, in which
the recovery timer fires. No call was made since that firing
(`sinceRecovery = 0`) and one since construction (`lifetime = 1`);
`totalRestarts` is 1, and `restarts` is 1, not 0. -/
theorem restarts_differs_from_calls_since_recovery :
    ∃ w : World, ProcessInfo.new "app.js" "child" (some OptionsArg.empty) Runtime.boot = .ok w ∧
      (w.count Winston.lenient Counts.zero crashThenQuiet).sinceRecovery = 0 ∧
      (w.count Winston.lenient Counts.zero crashThenQuiet).lifetime = 1 ∧
      (w.run Winston.lenient crashThenQuiet).info.totalRestarts = 1 ∧
      (w.run Winston.lenient crashThenQuiet).info.restarts = 1 :=
  ⟨_, rfl, by decide, by decide, by decide, by decide⟩

/-! ## Worker set: lemmas -/

theorem workers_eq_some (m : ManagedProcess) (ws : List Worker) (h : m.workers = some ws) :
    m.variant = .clusterMaster ws := by
  unfold ManagedProcess.workers at h
  cases hv : m.variant with
  | standalone => simp [hv] at h
  | clusterMaster vs =>
    simp only [hv, Option.some.injEq] at h
    rw [h]

theorem filter_id_length_le_one (ws : List Worker) (k : String)
    (hnd : (ws.map Worker.id).Nodup) : (ws.filter (fun x => x.id == k)).length ≤ 1 := by
  induction ws with
  | nil => simp
  | cons a as ih =>
    rw [List.map_cons, List.nodup_cons] at hnd
    by_cases ha : a.id = k
    · have hnone : as.filter (fun x => x.id == k) = [] := by
        rw [List.filter_eq_nil_iff]
        intro x hx hxk
        have hxid : x.id = k := by simpa using hxk
        exact hnd.1 (List.mem_map.mpr ⟨x, hx, by rw [hxid, ha]⟩)
      simp [List.filter_cons, ha, hnone]
    · simpa [List.filter_cons, ha] using ih hnd.2

theorem filter_id_length_pos (ws : List Worker) (k : String)
    (h : ws.any (fun x => x.id == k) = true) : 0 < (ws.filter (fun x => x.id == k)).length := by
  rw [List.any_eq_true] at h
  obtain ⟨x, hx, hxk⟩ := h
  exact List.length_pos_of_mem (List.mem_filter.mpr ⟨hx, hxk⟩)

theorem addWorker_nodup (m m1 : ManagedProcess) (ws ws1 : List Worker) (w : Worker)
    (hm : m.workers = some ws) (hnd : (ws.map Worker.id).Nodup)
    (h1 : m.addWorker w = some m1) (hw : m1.workers = some ws1) :
    (ws1.map Worker.id).Nodup := by
  have hv := workers_eq_some m ws hm
  unfold ManagedProcess.addWorker at h1
  rw [hv] at h1
  by_cases hany : ws.any (fun x => x.id == w.id) = true
  · simp only [hany, if_true, Option.some.injEq] at h1
    subst h1
    rw [hm] at hw
    simp only [Option.some.injEq] at hw
    subst hw
    exact hnd
  · simp only [hany, Bool.false_eq_true, if_false, Option.some.injEq] at h1
    subst h1
    simp only [ManagedProcess.workers, Option.some.injEq] at hw
    subst hw
    rw [List.map_append, List.nodup_append]
    refine ⟨hnd, by simp, ?_⟩
    intro a ha hb
    simp only [List.map_cons, List.map_nil, List.mem_singleton] at hb
    obtain ⟨x, hx, hxa⟩ := List.mem_map.mp ha
    apply hany
    rw [List.any_eq_true]
    exact ⟨x, hx, by simp [hxa, hb]⟩

theorem removeWorker_nodup (m m2 : ManagedProcess) (ws ws2 : List Worker) (w : Worker)
    (hm : m.workers = some ws) (hnd : (ws.map Worker.id).Nodup)
    (h2 : m.removeWorker w = some m2) (hw : m2.workers = some ws2) :
    (ws2.map Worker.id).Nodup := by
  have hv := workers_eq_some m ws hm
  unfold ManagedProcess.removeWorker at h2
  rw [hv] at h2
  simp only [Option.some.injEq] at h2
  subst h2
  simp only [ManagedProcess.workers, Option.some.injEq] at hw
  subst hw
  exact hnd.sublist ((List.filter_sublist ws).map Worker.id)

/-- C9: on a cluster master whose `workers` holds no two entries of one id,
`addWorker(w)` leaves exactly one entry of id `w.id`, keeps the entries there
were in their order at the front, and a second `addWorker(w)` changes nothing;
`removeWorker(w)` leaves no entry of id `w.id`, keeps exactly the other entries
in their order, and changes nothing when no entry has id `w.id`. -/
theorem worker_set_operations (m : ManagedProcess) (ws : List Worker) (w : Worker)
    (hm : m.workers = some ws) (hnd : (ws.map Worker.id).Nodup) :
    (∃ m1 ws1, m.addWorker w = some m1 ∧ m1.workers = some ws1 ∧
      (ws1.filter (fun x => x.id == w.id)).length = 1 ∧
      ws <+: ws1 ∧
      m1.addWorker w = some m1) ∧
    (∃ m2 ws2, m.removeWorker w = some m2 ∧ m2.workers = some ws2 ∧
      (∀ x ∈ ws2, x.id ≠ w.id) ∧
      ws2 = ws.filter (fun x => decide (x.id ≠ w.id)) ∧
      ((∀ x ∈ ws, x.id ≠ w.id) → m2 = m)) := by
  have hv := workers_eq_some m ws hm
  constructor
  · by_cases hany : ws.any (fun x => x.id == w.id) = true
    · have hadd : m.addWorker w = some m := by
        simp [ManagedProcess.addWorker, hv, hany]
      refine ⟨m, ws, hadd, hm, ?_, List.prefix_refl ws, hadd⟩
      have h1 := filter_id_length_le_one ws w.id hnd
      have h2 := filter_id_length_pos ws w.id hany
      omega
    · have hnone : ws.filter (fun x => x.id == w.id) = [] := by
        rw [List.filter_eq_nil_iff]
        intro x hx hxk
        exact hany (List.any_eq_true.mpr ⟨x, hx, hxk⟩)
      refine ⟨{ m with variant := .clusterMaster (ws ++ [w]) }, ws ++ [w], ?_, rfl, ?_,
        List.prefix_append ws [w], ?_⟩
      · simp [ManagedProcess.addWorker, hv, hany]
      · simp [List.filter_append, hnone]
      · simp [ManagedProcess.addWorker]
  · refine ⟨{ m with variant := .clusterMaster (ws.filter (fun x => x.id != w.id)) },
      ws.filter (fun x => x.id != w.id), ?_, rfl, ?_, ?_, ?_⟩
    · simp [ManagedProcess.removeWorker, hv]
    · intro x hx
      have := (List.mem_filter.mp hx).2
      simpa using this
    · apply List.filter_congr
      intro x _
      by_cases hx : x.id = w.id <;> simp [hx]
    · intro hall
      have hsame : ws.filter (fun x => x.id != w.id) = ws := by
        rw [List.filter_eq_self]
        intro x hx
        simpa using hall x hx
      rw [hsame, ← hv]

/-- C9, at the input of the test "should not add a worker twice": `workers`
holds `bar`, `foo` is added twice, and `workers` has length 2. -/
theorem worker_set_operations_witness :
    testMaster.workers = some [{ id := "bar", pid := 0 }] ∧
    (([{ id := "bar", pid := 0 }] : List Worker).map Worker.id).Nodup ∧
    ((∃ m1 ws1, testMaster.addWorker { id := "foo", pid := 1 } = some m1 ∧
      m1.workers = some ws1 ∧
      (ws1.filter (fun x => x.id == "foo")).length = 1 ∧
      [{ id := "bar", pid := 0 }] <+: ws1 ∧
      m1.addWorker { id := "foo", pid := 1 } = some m1) ∧
    (∃ m2 ws2, testMaster.removeWorker { id := "foo", pid := 1 } = some m2 ∧
      m2.workers = some ws2 ∧
      (∀ x ∈ ws2, x.id ≠ "foo") ∧
      ws2 = ([{ id := "bar", pid := 0 }] : List Worker).filter (fun x => decide (x.id ≠ "foo")) ∧
      ((∀ x ∈ ([{ id := "bar", pid := 0 }] : List Worker), x.id ≠ "foo") → m2 = testMaster))) ∧
    (((testMaster.addWorker { id := "foo", pid := 1 }).bind
        (fun m => m.addWorker { id := "foo", pid := 1 })).bind ManagedProcess.workers).map
      List.length = some 2 :=
  ⟨rfl, by decide,
    worker_set_operations testMaster [{ id := "bar", pid := 0 }] { id := "foo", pid := 1 } rfl
      (by decide),
    by decide⟩

end Guvnor
